import Mathlib

/-!
# Verification of the mikanbako concurrent downloader (src/src/main.rs)

A shallow embedding of the program in Lean 4, together with proofs of the
specification claims.  Pure Rust functions become Lean functions on
`List Char` / `String` / `Nat` / `Int`; the tokio worker pool becomes an
explicit labelled transition system on configurations; the effectful
`download` function becomes a function of an explicit environment (HTTP
response, wall-clock time, OS write results) returning the final file
system and the emitted progress total.
-/

namespace Mikanbako

/-! ## String helpers: embedding of Rust `str::replace`

Rust's `str::replace(pat, rep)` replaces every non-overlapping occurrence of
`pat`, scanning left to right.  The program only ever calls it with the
non-empty patterns `"{}"`, `"\r"` and `"\n"`, so the empty-pattern corner of
the Rust semantics (matching between characters) is never exercised; for an
empty pattern this embedding returns the string unchanged. -/

def listReplace (pat rep : List Char) : List Char → List Char
  | [] => []
  | c :: rest =>
    if pat ≠ [] ∧ pat.isPrefixOf (c :: rest) then
      rep ++ listReplace pat rep ((c :: rest).drop pat.length)
    else
      c :: listReplace pat rep rest
termination_by s => s.length
decreasing_by
  · simp only [List.length_drop, List.length_cons]
    have hne : pat ≠ [] := by
      rename_i h
      exact h.1
    have : 1 ≤ pat.length := List.length_pos.mpr hne
    omega
  · simp [Nat.lt_succ_self]

/-- Embedding of Rust `str::replace` on `String`s. -/
def strReplace (s pat rep : String) : String :=
  ⟨listReplace pat.data rep.data s.data⟩

/-! ## Embedding of `i64::to_string` / `u128::to_string` (decimal rendering) -/

/-- Decimal digit characters of a natural number, most significant first.
Embeds the decimal rendering performed by Rust's integer `to_string`. -/
def decimalDigits (n : Nat) : List Char :=
  if h : n < 10 then
    [Nat.digitChar n]
  else
    decimalDigits (n / 10) ++ [Nat.digitChar (n % 10)]
termination_by n
decreasing_by
  have h10 : 10 ≤ n := Nat.le_of_not_lt h
  exact Nat.div_lt_self (by omega) (by omega)

/-- Embedding of `u128::to_string` (and `i64::to_string` on non-negative
input): decimal representation of a `Nat`. -/
def natToString (n : Nat) : String :=
  ⟨decimalDigits n⟩

/-- Embedding of `i64::to_string`: sign, then decimal digits. -/
def intToString (i : Int) : String :=
  if i < 0 then ⟨'-' :: decimalDigits i.natAbs⟩ else natToString i.natAbs

/-! ## `create_sequential_download_list` (main.rs lines 171-187)

```rust
if start > end { return Err(anyhow!("The value of start must be less than end")); }
let mut urls = Vec::with_capacity((end - start) as usize + 1);
for i in start..=end {
    let url = url.replace("{}", &i.to_string());
    urls.push(url);
}
Ok(urls)
```
`start` and `end` are `i64`, embedded as `Int` (no overflow is reachable:
the loop would take longer than a lifetime before `i64` arithmetic wraps). -/

/-- The `for i in start..=end` loop body: pushes one URL per integer `i`
while `i ≤ last`. -/
def seqLoop (url : String) (i last : Int) : List String :=
  if h : last < i then
    []
  else
    strReplace url "{}" (intToString i) :: seqLoop url (i + 1) last
termination_by (last + 1 - i).toNat
decreasing_by
  have hle : i ≤ last := Int.not_lt.mp h
  omega

def create_sequential_download_list (url : String) (start last : Int) :
    Except String (List String) :=
  if start > last then
    .error "The value of start must be less than end"
  else
    .ok (seqLoop url start last)

/-! ## `create_download_list_from_file` (main.rs lines 190-207)

`BufReader::read_line` reads up to and including the next `'\n'` (the
terminator is kept in the buffer) and returns `0` only at end of file, so
the produced lines are exactly the `'\n'`-terminated prefixes of the file
content plus a final unterminated chunk, each of them non-empty.  The file
content is embedded as its character list. -/

/-- Splits file content into the successive buffers produced by repeated
`read_line` calls: each `'\n'` ends a line (and is kept), a trailing chunk
without `'\n'` is a final line, and end of file yields no further line.
`cur` is the reversed accumulator of the current line. -/
def readLineSplit (cur : List Char) : List Char → List (List Char)
  | [] => if cur.isEmpty then [] else [cur.reverse]
  | c :: rest =>
    if c = '\n' then
      (c :: cur).reverse :: readLineSplit [] rest
    else
      readLineSplit (c :: cur) rest

def create_download_list_from_file (content : String) : List String :=
  (readLineSplit [] content.data).filterMap fun line =>
    if line.length ≠ 0 then
      some (strReplace (strReplace ⟨line⟩ "\r" "") "\n" "")
    else
      none

/-! ## Connection-count handling (main.rs lines 45-50, 294-298) -/

/-- Numeric value of a decimal digit string (used to state that decimal
rendering is injective). -/
def decVal (l : List Char) : Nat :=
  l.foldl (fun a c => a * 10 + (c.toNat - 48)) 0

/-- Embedding of `str::parse::<usize>`: optional leading `'+'`, then one or
more ASCII digits.  (Values beyond `usize::MAX` would overflow in Rust; no
claim exercises them and they are modelled as accepted.) -/
def parseUsize (s : String) : Option Nat :=
  let ds := match s.data with
            | '+' :: rest => rest
            | l => l
  if ds ≠ [] ∧ ds.all Char.isDigit then
    some (decVal ds)
  else
    none

/-- `validate_natural_number` (main.rs lines 294-298): accepts exactly the
strings that parse as `usize`. -/
def validate_natural_number (v : String) : Except String Unit :=
  match parseUsize v with
  | some _ => .ok ()
  | none => .error "The value must be a positive integer"

/-- The connection clamp (main.rs lines 46-50):
`if connections <= 10 { connections } else { 2 }`. -/
def clampConnections (connections : Nat) : Nat :=
  if connections ≤ 10 then connections else 2

/-! ## UTF-8 and percent decoding

`download` resolves a filename with
`percent_decode_str(segments.last().unwrap()).decode_utf8_lossy().to_string()`.
`percent_decode_str` works on the UTF-8 bytes of the segment: a `'%'`
followed by two hex digits becomes one byte, any other byte passes through;
a `'%'` not followed by two hex digits is a literal `'%'` byte and decoding
resumes at the very next byte.  `decode_utf8_lossy` decodes the byte
sequence as UTF-8.  Bytes are embedded as `Nat` values `< 256`. -/

/-- UTF-8 bytes of one character (standard 1-4 byte encoding). -/
def utf8Encode (c : Char) : List Nat :=
  let n := c.toNat
  if n < 128 then [n]
  else if n < 2048 then [192 + n / 64, 128 + n % 64]
  else if n < 65536 then [224 + n / 4096, 128 + n / 64 % 64, 128 + n % 64]
  else [240 + n / 262144, 128 + n / 4096 % 64, 128 + n / 64 % 64, 128 + n % 64]

/-- Value of a hex digit character, `none` for anything else. -/
def hexVal (c : Char) : Option Nat :=
  if '0' ≤ c ∧ c ≤ '9' then some (c.toNat - 48)
  else if 'a' ≤ c ∧ c ≤ 'f' then some (c.toNat - 87)
  else if 'A' ≤ c ∧ c ≤ 'F' then some (c.toNat - 55)
  else none

/-- Embedding of `percent_decode_str` on the character list of a (UTF-8)
string, producing the decoded byte sequence. -/
def percentDecode : List Char → List Nat
  | [] => []
  | '%' :: a :: b :: rest =>
    match hexVal a, hexVal b with
    | some ha, some hb => (16 * ha + hb) :: percentDecode rest
    | _, _ => 37 :: percentDecode (a :: b :: rest)
  | '%' :: rest => 37 :: percentDecode rest
  | c :: rest => utf8Encode c ++ percentDecode rest

/-- Is `b` a UTF-8 continuation byte? -/
def utf8IsCont (b : Nat) : Bool :=
  128 ≤ b ∧ b ≤ 191

/-- Valid first continuation byte of a 3-byte sequence led by `b`
(excludes overlong encodings and surrogates). -/
def utf8Cont3 (b b1 : Nat) : Bool :=
  if b = 224 then 160 ≤ b1 ∧ b1 ≤ 191
  else if b = 237 then 128 ≤ b1 ∧ b1 ≤ 159
  else utf8IsCont b1

/-- Valid first continuation byte of a 4-byte sequence led by `b`
(excludes overlong encodings and code points beyond U+10FFFF). -/
def utf8Cont4 (b b1 : Nat) : Bool :=
  if b = 240 then 144 ≤ b1 ∧ b1 ≤ 191
  else if b = 244 then 128 ≤ b1 ∧ b1 ≤ 143
  else utf8IsCont b1

/-- Number of continuation bytes consumed after leading byte `b`:
`1`-`3` when `rest` starts with a valid continuation of `b`, else `0`
(an invalid sequence consumes only its leading byte here). -/
def utf8StepLen (b : Nat) (rest : List Nat) : Nat :=
  if b < 128 then 0
  else if 194 ≤ b ∧ b ≤ 223 then
    match rest with
    | b1 :: _ => if utf8IsCont b1 then 1 else 0
    | [] => 0
  else if 224 ≤ b ∧ b ≤ 239 then
    match rest with
    | b1 :: b2 :: _ => if utf8Cont3 b b1 ∧ utf8IsCont b2 then 2 else 0
    | _ => 0
  else if 240 ≤ b ∧ b ≤ 244 then
    match rest with
    | b1 :: b2 :: b3 :: _ =>
      if utf8Cont4 b b1 ∧ utf8IsCont b2 ∧ utf8IsCont b3 then 3 else 0
    | _ => 0
  else 0

/-- The character decoded from leading byte `b` followed by `rest`:
the code point of a valid 1-4 byte sequence, else U+FFFD. -/
def utf8StepChar (b : Nat) (rest : List Nat) : Char :=
  if b < 128 then Char.ofNat b
  else if 194 ≤ b ∧ b ≤ 223 then
    match rest with
    | b1 :: _ =>
      if utf8IsCont b1 then Char.ofNat ((b - 192) * 64 + (b1 - 128)) else '�'
    | [] => '�'
  else if 224 ≤ b ∧ b ≤ 239 then
    match rest with
    | b1 :: b2 :: _ =>
      if utf8Cont3 b b1 ∧ utf8IsCont b2 then
        Char.ofNat ((b - 224) * 4096 + (b1 - 128) * 64 + (b2 - 128))
      else '�'
    | _ => '�'
  else if 240 ≤ b ∧ b ≤ 244 then
    match rest with
    | b1 :: b2 :: b3 :: _ =>
      if utf8Cont4 b b1 ∧ utf8IsCont b2 ∧ utf8IsCont b3 then
        Char.ofNat
          ((b - 240) * 262144 + (b1 - 128) * 4096 + (b2 - 128) * 64 +
            (b3 - 128))
      else '�'
    | _ => '�'
  else '�'

/-- Embedding of `String::from_utf8_lossy` (via `decode_utf8_lossy`):
decodes a UTF-8 byte sequence, mapping invalid sequences to U+FFFD.  On
invalid input the precise resynchronisation point differs from Rust's
maximal-subpart rule in some corners; every byte sequence decoded in this
development is valid UTF-8, where both agree. -/
def utf8DecodeLossy : List Nat → List Char
  | [] => []
  | b :: rest =>
    utf8StepChar b rest :: utf8DecodeLossy (rest.drop (utf8StepLen b rest))
termination_by bs => bs.length
decreasing_by
  simp only [List.length_cons, List.length_drop]
  omega

/-- `percent_decode_str(s).decode_utf8_lossy().to_string()`. -/
def percentDecodeLossy (s : String) : String :=
  ⟨utf8DecodeLossy (percentDecode s.data)⟩

/-! ## `gen_filename` (main.rs lines 278-283)

```rust
let now = time::SystemTime::now();
let secs = now.duration_since(time::UNIX_EPOCH)?.as_millis();
Ok(secs.to_string())
```
`duration_since` yields a `Duration` with nanosecond resolution;
`as_millis()` truncates it to whole milliseconds.  The wall clock is
embedded as the number of nanoseconds since the Unix epoch (the `?` error
arm only fires for a clock set before 1970, which a `Nat` instant cannot
express). -/

def gen_filename (nowNanos : Nat) : String :=
  natToString (nowNanos / 1000000)

/-! ## Filename resolution inside `download` (main.rs lines 231-235)

```rust
let filename = match res.url().path_segments() {
    Some(segments) => percent_decode_str(
        segments.last().unwrap()).decode_utf8_lossy().to_string(),
    None => gen_filename()?,
};
```
`Url::path_segments()` returns `Some` exactly when the URL can be a base
(always, for `http`/`https` URLs), and the iterator it returns is never
empty — the path starts with `'/'` and splitting on `'/'` yields at least
one, possibly empty, segment — so `segments.last().unwrap()` cannot panic;
it is embedded as `getLastD ""`. -/

def resolveFilename (segments : Option (List String)) (nowNanos : Nat) :
    String :=
  match segments with
  | some segs => percentDecodeLossy (segs.getLastD "")
  | none => gen_filename nowNanos

/-- The spec's words, for comparison: "the last non-empty path segment of
the final request URL". -/
def lastNonEmptySegment (segs : List String) : Option String :=
  (segs.filter (fun s => s ≠ "")).getLast?

/-! ## The `download` function (main.rs lines 210-261)

The effectful parts are made explicit:
* the result of `client.get(url).send().await` — either a transport error
  or a response carrying the final (post-redirect) URL's path segments, an
  optional `Content-Length`, and the body stream as a list of items, each
  a chunk of bytes or a mid-stream read error;
* the wall-clock time (for `gen_filename`);
* the byte counts accepted by each `file.write(&chunk)` call.  Rust's
  `Write::write` may accept fewer bytes than offered (a short write); the
  code ignores the returned count.  A write never accepts more than the
  chunk, so the accepted count is `min` of the oracle value and the chunk
  length.  (A failing write would abort the task through `?`, exactly like
  a stream error; the claims only concern runs whose writes succeed.)

The directory is fixed, so the file system is embedded as a map from
filename to file content; `content_length` only styles the progress bar
(lines 241-245) and does not affect the data flow. -/

structure HttpResponse where
  /-- `res.url().path_segments()` of the final, post-redirect URL. -/
  finalSegments : Option (List String)
  /-- `res.content_length()`. -/
  contentLength : Option Nat
  /-- `res.bytes_stream()` items: byte chunks or a mid-stream error. -/
  body : List (Except Unit (List Nat))

structure DlEnv where
  /-- Result of `client.get(url).send().await`. -/
  send : Except String HttpResponse
  /-- Nanoseconds since the Unix epoch at `SystemTime::now()`. -/
  nowNanos : Nat
  /-- Bytes accepted by the successive `file.write` calls. -/
  writeCounts : List Nat

/-- Update the modelled output directory: `create(true).write(true)
.truncate(true)` followed by the writes leaves `content` in `name`. -/
def fsSet (fs : String → Option (List Nat)) (name : String)
    (content : List Nat) : String → Option (List Nat) :=
  fun n => if n = name then some content else fs n

/-- The `while let Some(item) = stream.next().await` loop: each chunk is
written (`file.write(&chunk)?`, the count ignored) and then the bar is
advanced by `chunk.len()`; a stream error aborts with
`Err(anyhow!("Error while downloading file"))`, keeping the partial file.
Returns (result, file content, progress total). -/
def streamLoop (items : List (Except Unit (List Nat))) (writeCounts : List Nat)
    (content : List Nat) (progress : Nat) :
    Except String Unit × List Nat × Nat :=
  match items with
  | [] => (.ok (), content, progress)
  | .error _ :: _ => (.error "Error while downloading file", content, progress)
  | .ok chunk :: rest =>
    streamLoop rest writeCounts.tail
      (content ++ chunk.take (min (writeCounts.headD chunk.length) chunk.length))
      (progress + chunk.length)

/-- One Transfer Operation: returns its result, the updated output
directory, and the total of the emitted byte-progress increments. -/
def download (env : DlEnv) (fs : String → Option (List Nat)) :
    Except String Unit × (String → Option (List Nat)) × Nat :=
  match env.send with
  | .error err => (.error err, fs, 0)
  | .ok res =>
    let filename := resolveFilename res.finalSegments env.nowNanos
    let result := streamLoop res.body env.writeCounts [] 0
    (result.1, fsSet fs filename result.2.1, result.2.2)

/-- An output directory with no files yet. -/
def emptyFs : String → Option (List Nat) :=
  fun _ => none

/-- A run in which the server sends one 2-byte chunk for file `f` and the
operating system accepts only 1 byte of the `file.write` call — a short
write, which the `Write` contract allows and `file.write(&chunk)?`
silently ignores. -/
def shortWriteResponse : HttpResponse :=
  { finalSegments := some ["f"], contentLength := none,
    body := [.ok [7, 8]] }

def shortWriteEnv : DlEnv :=
  { send := .ok shortWriteResponse, nowNanos := 0, writeCounts := [1] }

/-- A run whose initial `client.get(url).send().await` fails. -/
def sendFailEnv : DlEnv :=
  { send := .error "connection refused", nowNanos := 0, writeCounts := [] }

/-! ## The worker pool (main.rs lines 51-104)

```rust
let counter = Arc::new(AtomicUsize::new(0));
for _ in 0..connections {
    handles.push(tokio::spawn(async move {
        loop {
            let _ = semaphore.acquire().await.unwrap();
            let index = counter.fetch_add(1, Ordering::Acquire);
            if index >= urls.len() { break; }
            let url = &urls[index];
            let bar = bars.add(ProgressBar::new_spinner());
            if let Err(err) = download(url, &output_dir, &bar).await {
                eprintln!("{:#?}", err);
            }
            bars.remove(&bar);
            main_bar.inc(1);
        }
    }));
}
for handle in handles { handle.await?; }
```

The pool is embedded as a labelled transition system over configurations.
A configuration holds the shared atomic cursor (`counter`), the state of
each spawned worker, the log of completed Transfer Operations (worker,
claimed index, success flag — the URL passed to `download` is
`urls[index]`, determined by the index), and the aggregate progress
counter (`main_bar`'s position).

One transition is one atomic action of one worker:
* `claimGo`: `counter.fetch_add(1)` returning an index below `urls.len()`
  — the worker moves on to executing `download` for that index;
* `claimHalt`: `fetch_add` returning an index `≥ urls.len()` — the worker
  breaks out of its loop and its task ends;
* `finish`: the worker's `download` call returns (`ok` records whether it
  succeeded; an `Err` is only printed), the completion is logged and the
  worker increments the aggregate bar and loops back.

The semaphore permit acquired at the top of the loop is bound to `_`, so
it is dropped (released) at once; with `connections` permits for
`connections` workers it never blocks a worker indefinitely and adds no
behaviour, so it is not part of the state.  The per-task spinner bar and
the ticker task do not touch the shared data. -/

structure LogEntry where
  worker : Nat
  idx : Nat
  ok : Bool
deriving DecidableEq, Repr

inductive WState where
  /-- About to execute `counter.fetch_add`. -/
  | ready : WState
  /-- Executing `download` for the claimed index. -/
  | processing (idx : Nat) : WState
  /-- Broke out of the loop; the spawned task has returned. -/
  | halted : WState
deriving DecidableEq, Repr

structure Config where
  /-- The shared `AtomicUsize` cursor. -/
  ctr : Nat
  /-- One entry per spawned worker. -/
  ws : List WState
  /-- Completed Transfer Operations, in completion order. -/
  log : List LogEntry
  /-- The aggregate counter (`main_bar.inc(1)` calls). -/
  agg : Nat
deriving DecidableEq, Repr

/-- Index currently being processed by a worker, if any. -/
def procOf : WState → List Nat
  | .processing idx => [idx]
  | _ => []

/-- All indices currently being processed by some worker. -/
def procIdxs (ws : List WState) : List Nat :=
  ws.flatMap procOf

/-- One atomic action of one worker, for a target list of length `M`. -/
inductive Step (M : Nat) : Config → Config → Prop
  | claimGo (c : Config) (i : Nat) (h : c.ws.get? i = some .ready)
      (hlt : c.ctr < M) :
      Step M c ⟨c.ctr + 1, c.ws.set i (.processing c.ctr), c.log, c.agg⟩
  | claimHalt (c : Config) (i : Nat) (h : c.ws.get? i = some .ready)
      (hge : M ≤ c.ctr) :
      Step M c ⟨c.ctr + 1, c.ws.set i .halted, c.log, c.agg⟩
  | finish (c : Config) (i idx : Nat) (ok : Bool)
      (h : c.ws.get? i = some (.processing idx)) :
      Step M c ⟨c.ctr, c.ws.set i .ready, c.log ++ [⟨i, idx, ok⟩], c.agg + 1⟩

/-- The configuration right after spawning `N` workers: cursor `0`, every
worker at the top of its loop, nothing logged. -/
def initConfig (N : Nat) : Config :=
  ⟨0, List.replicate N .ready, [], 0⟩

/-- Reachability of a configuration when running the pool with `N` workers
over `urls`. -/
def PoolReach (urls : List String) (N : Nat) (c : Config) : Prop :=
  Relation.ReflTransGen (Step urls.length) (initConfig N) c

/-- Every worker has broken out of its loop: `for handle in handles
{ handle.await?; }` has returned and the pool is done. -/
def Terminal (c : Config) : Prop :=
  ∀ w ∈ c.ws, w = WState.halted

/-- The inductive invariant of the pool: the worker list keeps its length;
the completed and in-flight indices are, without repetition, exactly those
below the cursor (capped at `M`); the aggregate counter counts completed
tasks; and once some worker has halted the cursor has passed `M`. -/
structure Inv (M N : Nat) (c : Config) : Prop where
  len : c.ws.length = N
  perm : List.Perm (c.log.map LogEntry.idx ++ procIdxs c.ws)
    (List.range (min c.ctr M))
  agg : c.agg = c.log.length
  halt : ∀ w ∈ c.ws, w = WState.halted → M ≤ c.ctr

/-! Concrete configurations of a one-worker run over one URL, used to
exhibit executions: the worker claims index 0, its Transfer Operation
fails, it loops, claims index 1 ≥ 1 and halts. -/

def exCfg1 : Config := ⟨1, [.processing 0], [], 0⟩

def exCfg2 : Config := ⟨1, [.ready], [⟨0, 0, false⟩], 1⟩

def exCfg3 : Config := ⟨2, [.halted], [⟨0, 0, false⟩], 1⟩

/-! ## Pool invariant lemmas -/

theorem ws_decomp {ws : List WState} {i : Nat} {w : WState}
    (h : ws.get? i = some w) :
    ∃ l r, ws = l ++ w :: r ∧ ∀ v, ws.set i v = l ++ v :: r := by
  induction ws generalizing i with
  | nil => simp at h
  | cons a tl ih =>
    cases i with
    | zero =>
      simp only [List.get?_cons_zero, Option.some.injEq] at h
      exact ⟨[], tl, by simp [h], fun v => by simp⟩
    | succ n =>
      simp only [List.get?_cons_succ] at h
      obtain ⟨l, r, h1, h2⟩ := ih h
      exact ⟨a :: l, r, by simp [h1], fun v => by simp [h2 v]⟩

theorem procIdxs_append (l r : List WState) :
    procIdxs (l ++ r) = procIdxs l ++ procIdxs r := by
  simp [procIdxs]

theorem procIdxs_cons (w : WState) (r : List WState) :
    procIdxs (w :: r) = procOf w ++ procIdxs r := by
  simp [procIdxs]

theorem procIdxs_replicate_ready (n : Nat) :
    procIdxs (List.replicate n .ready) = [] := by
  induction n with
  | zero => rfl
  | succ k ih => simpa [List.replicate_succ, procIdxs_cons, procOf] using ih

theorem inv_init (M N : Nat) : Inv M N (initConfig N) := by
  refine ⟨by simp [initConfig], ?_, rfl, ?_⟩
  · simp [initConfig, procIdxs_replicate_ready, Nat.min_def]
  · intro w hw hhalt
    rw [List.eq_of_mem_replicate hw] at hhalt
    exact absurd hhalt (by simp)

theorem inv_step {M N : Nat} {c c' : Config} (hstep : Step M c c')
    (hinv : Inv M N c) : Inv M N c' := by
  obtain ⟨hlen, hperm, hagg, hhalt⟩ := hinv
  cases hstep with
  | claimGo i h hlt =>
    obtain ⟨l, r, hws, hset⟩ := ws_decomp h
    refine ⟨?_, ?_, hagg, ?_⟩
    · simpa using hlen
    · rw [hws, procIdxs_append, procIdxs_cons] at hperm
      simp only [hset, procIdxs_append, procIdxs_cons, procOf, procOf] at *
      have h1 : min c.ctr M = c.ctr := Nat.min_eq_left (Nat.le_of_lt hlt)
      have h2 : min (c.ctr + 1) M = c.ctr + 1 := Nat.min_eq_left hlt
      rw [h1] at hperm
      rw [h2, List.range_succ]
      have p1 : (c.log.map LogEntry.idx ++
          (procIdxs l ++ c.ctr :: procIdxs r)).Perm
          (c.ctr :: (c.log.map LogEntry.idx ++ (procIdxs l ++ procIdxs r))) := by
        have := @List.perm_middle Nat c.ctr
          (c.log.map LogEntry.idx ++ procIdxs l) (procIdxs r)
        simpa using this
      have p2 := (hperm.cons c.ctr).trans
        (List.perm_append_singleton c.ctr (List.range c.ctr)).symm
      exact p1.trans (by simpa using p2)
    · intro w hw
      rw [hset] at hw
      simp only [List.mem_append, List.mem_cons] at hw
      rcases hw with hw | hw | hw
      · intro he
        exact Nat.le_succ_of_le (hhalt w (by simp [hws, hw]) he)
      · intro he; rw [hw] at he; exact absurd he (by simp)
      · intro he
        exact Nat.le_succ_of_le (hhalt w (by simp [hws, hw]) he)
  | claimHalt i h hge =>
    obtain ⟨l, r, hws, hset⟩ := ws_decomp h
    refine ⟨?_, ?_, hagg, fun w hw he => Nat.le_succ_of_le hge⟩
    · simpa using hlen
    · rw [hws, procIdxs_append, procIdxs_cons] at hperm
      simp only [hset, procIdxs_append, procIdxs_cons, procOf] at *
      have h1 : min c.ctr M = M := Nat.min_eq_right hge
      have h2 : min (c.ctr + 1) M = M := Nat.min_eq_right (Nat.le_succ_of_le hge)
      rw [h1] at hperm
      rw [h2]
      simpa using hperm
  | finish i idx ok h =>
    obtain ⟨l, r, hws, hset⟩ := ws_decomp h
    refine ⟨?_, ?_, by simp [hagg], ?_⟩
    · simpa using hlen
    · rw [hws, procIdxs_append, procIdxs_cons] at hperm
      simp only [hset, procIdxs_append, procIdxs_cons, procOf, List.map_append,
        List.map_cons, List.map_nil] at *
      have q1 : ((c.log.map LogEntry.idx ++ [idx]) ++
          (procIdxs l ++ procIdxs r)).Perm
          (idx :: (c.log.map LogEntry.idx ++ (procIdxs l ++ procIdxs r))) := by
        have h3 := List.Perm.append_right (procIdxs l ++ procIdxs r)
          (List.perm_append_singleton idx (c.log.map LogEntry.idx))
        exact h3
      have q2 : (c.log.map LogEntry.idx ++
          (procIdxs l ++ idx :: procIdxs r)).Perm
          (idx :: (c.log.map LogEntry.idx ++ (procIdxs l ++ procIdxs r))) := by
        have := @List.perm_middle Nat idx
          (c.log.map LogEntry.idx ++ procIdxs l) (procIdxs r)
        simpa using this
      refine List.Perm.trans ?_ (q2.symm.trans hperm)
      exact q1
    · intro w hw
      rw [hset] at hw
      simp only [List.mem_append, List.mem_cons] at hw
      rcases hw with hw | hw | hw
      · exact hhalt w (by simp [hws, hw])
      · intro he; rw [hw] at he; exact absurd he (by simp)
      · exact hhalt w (by simp [hws, hw])

theorem inv_reach {urls : List String} {N : Nat} {c : Config}
    (h : PoolReach urls N c) : Inv urls.length N c := by
  induction h with
  | refl => exact inv_init _ _
  | tail _ hstep ih => exact inv_step hstep ih

theorem terminal_procIdxs {c : Config} (h : Terminal c) :
    procIdxs c.ws = [] := by
  have : ∀ ws : List WState, (∀ w ∈ ws, w = WState.halted) → procIdxs ws = [] := by
    intro ws hws
    induction ws with
    | nil => rfl
    | cons a tl ih =>
      rw [procIdxs_cons, hws a (by simp), ih fun w hw => hws w (by simp [hw])]
      rfl
  exact this c.ws h

/-- In a terminal configuration of a pool with at least one worker, the
logged indices are a permutation of `[0, M)`. -/
theorem reach_terminal_perm {urls : List String} {N : Nat} {c : Config}
    (hN : 1 ≤ N) (hreach : PoolReach urls N c) (hterm : Terminal c) :
    List.Perm (c.log.map LogEntry.idx) (List.range urls.length) := by
  obtain ⟨hlen, hperm, hagg, hhalt⟩ := inv_reach hreach
  have hws : c.ws ≠ [] := by
    intro hnil
    rw [hnil] at hlen
    simp at hlen
    omega
  obtain ⟨w, hw⟩ := List.exists_mem_of_ne_nil c.ws hws
  have hM : urls.length ≤ c.ctr := hhalt w hw (hterm w hw)
  rw [terminal_procIdxs hterm, List.append_nil,
    Nat.min_eq_right hM] at hperm
  exact hperm

/-! ## A concrete execution: one worker, one URL, a failing task -/

theorem step_ex1 : Step 1 (initConfig 1) exCfg1 :=
  Step.claimGo (initConfig 1) 0 rfl (by decide)

theorem step_ex2 : Step 1 exCfg1 exCfg2 :=
  Step.finish exCfg1 0 0 false rfl

theorem step_ex3 : Step 1 exCfg2 exCfg3 :=
  Step.claimHalt exCfg2 0 rfl (by decide)

theorem reach_exCfg3 : PoolReach ["u"] 1 exCfg3 :=
  Relation.ReflTransGen.head step_ex1
    (Relation.ReflTransGen.head step_ex2
      (Relation.ReflTransGen.head step_ex3 Relation.ReflTransGen.refl))

theorem terminal_exCfg3 : Terminal exCfg3 :=
  fun _ hw => List.mem_singleton.mp hw

/-! ## Decimal rendering lemmas -/

theorem digitChar_val {d : Nat} (h : d < 10) :
    (Nat.digitChar d).toNat - 48 = d := by
  interval_cases d <;> rfl

theorem digitChar_isDigit {d : Nat} (h : d < 10) :
    (Nat.digitChar d).isDigit := by
  interval_cases d <;> decide

theorem decVal_decimalDigits (n : Nat) : decVal (decimalDigits n) = n := by
  induction n using Nat.strong_induction_on with
  | _ n ih =>
    rw [decimalDigits]
    split
    · rename_i h
      simpa [decVal] using digitChar_val h
    · rename_i h
      have h10 : 10 ≤ n := Nat.le_of_not_lt h
      have ihd := ih (n / 10) (Nat.div_lt_self (by omega) (by omega))
      have hstep : decVal (decimalDigits (n / 10) ++ [Nat.digitChar (n % 10)]) =
          decVal (decimalDigits (n / 10)) * 10 +
            ((Nat.digitChar (n % 10)).toNat - 48) := by
        simp [decVal, List.foldl_append]
      rw [hstep, ihd, digitChar_val (Nat.mod_lt _ (by omega))]
      omega

theorem natToString_injective {a b : Nat} (h : natToString a = natToString b) :
    a = b := by
  have hd : decimalDigits a = decimalDigits b := congrArg String.data h
  have := congrArg decVal hd
  rwa [decVal_decimalDigits, decVal_decimalDigits] at this

theorem decimalDigits_ne_nil (n : Nat) : decimalDigits n ≠ [] := by
  rw [decimalDigits]
  split <;> simp

theorem decimalDigits_isDigit (n : Nat) :
    ∀ c ∈ decimalDigits n, c.isDigit := by
  induction n using Nat.strong_induction_on with
  | _ n ih =>
    rw [decimalDigits]
    split
    · rename_i h
      intro c hc
      rw [List.mem_singleton.mp hc]
      exact digitChar_isDigit h
    · rename_i h
      intro c hc
      rcases List.mem_append.mp hc with hc | hc
      · exact ih (n / 10) (Nat.div_lt_self (by omega) (by omega)) c hc
      · rw [List.mem_singleton.mp hc]
        exact digitChar_isDigit (Nat.mod_lt _ (by omega))

/-! ## `seqLoop` lemmas -/

theorem seqLoop_length (url : String) (i last : Int) :
    (seqLoop url i last).length = (last + 1 - i).toNat := by
  have H : ∀ (n : Nat) (i : Int), (last + 1 - i).toNat = n →
      (seqLoop url i last).length = n := by
    intro n
    induction n with
    | zero =>
      intro i h0
      rw [seqLoop]
      have : last < i := by omega
      simp [this]
    | succ m ihm =>
      intro i h
      rw [seqLoop]
      have hni : ¬ last < i := by omega
      simp only [hni, dite_false, List.length_cons]
      rw [ihm (i + 1) (by omega)]
  exact H _ i rfl

theorem seqLoop_get (url : String) (k : Nat) :
    ∀ i last : Int, (k : Int) ≤ last - i →
      (seqLoop url i last).get? k =
        some (strReplace url "{}" (intToString (i + k))) := by
  induction k with
  | zero =>
    intro i last h
    rw [seqLoop]
    have : ¬ last < i := by omega
    simp [this]
  | succ m ihm =>
    intro i last h
    rw [seqLoop]
    have : ¬ last < i := by omega
    simp only [this, dite_false, List.get?_cons_succ]
    have harg : i + 1 + (m : Int) = i + ((m + 1 : Nat) : Int) := by
      push_cast
      ring
    rw [ihm (i + 1) last (by omega), harg]

/-! ## Claim theorems -/

/-- Claim C1: with `N ≥ 1` workers over `M = urls.length` targets, when the
pool has terminated the log holds exactly `M` completed Transfer
Operations whose claimed indices are a permutation of `[0, M)` — each
index was claimed from the shared cursor and processed exactly once, by
the single worker recorded in its log entry; and when `M = 0` every
reachable configuration has an empty log, so no Transfer Operation ever
runs. -/
theorem claim_pool_each_index_exactly_once (urls : List String) (N : Nat)
    (c : Config) (hN : 1 ≤ N) (hreach : PoolReach urls N c) :
    (Terminal c → c.log.length = urls.length ∧
      List.Perm (c.log.map LogEntry.idx) (List.range urls.length)) ∧
    (urls.length = 0 → c.log = []) := by
  constructor
  · intro hterm
    have hp := reach_terminal_perm hN hreach hterm
    refine ⟨?_, hp⟩
    simpa using hp.length_eq
  · intro h0
    have hperm := (inv_reach hreach).perm
    rw [h0] at hperm
    simp only [Nat.min_zero, List.range_zero, List.perm_nil,
      List.append_eq_nil, List.map_eq_nil_iff] at hperm
    exact hperm.1

/-- Witness for C1: the one-worker run over one URL ends with exactly the
index 0 logged once. -/
theorem claim_pool_each_index_exactly_once_witness :
    exCfg3.log.length = 1 ∧
    List.Perm (exCfg3.log.map LogEntry.idx) (List.range 1) :=
  (claim_pool_each_index_exactly_once ["u"] 1 exCfg3 (by decide)
    reach_exCfg3).1 terminal_exCfg3

/-- Claim C2: failures are isolated.  In any terminal run in which some
worker `i` logged a failed Transfer Operation for index `k`, still every
index of `[0, M)` — in particular all of `[k+1, M)` — was claimed and
processed exactly once, and the aggregate counter reached `M`: no per-task
failure (nor several across workers: the log may hold any number of failed
entries) stops a worker's loop or the batch. -/
theorem claim_failure_isolation (urls : List String) (N : Nat) (c : Config)
    (i k : Nat) (hN : 1 ≤ N) (hreach : PoolReach urls N c)
    (hterm : Terminal c) (hfail : (⟨i, k, false⟩ : LogEntry) ∈ c.log) :
    (∀ j, j < urls.length → ∃ e ∈ c.log, e.idx = j) ∧
    (∀ j, j < urls.length → (c.log.map LogEntry.idx).count j = 1) ∧
    c.agg = urls.length := by
  have hp := reach_terminal_perm hN hreach hterm
  refine ⟨?_, ?_, ?_⟩
  · intro j hj
    have hj2 : j ∈ c.log.map LogEntry.idx :=
      hp.mem_iff.mpr (List.mem_range.mpr hj)
    obtain ⟨e, he, hei⟩ := List.mem_map.mp hj2
    exact ⟨e, he, hei⟩
  · intro j hj
    rw [hp.count_eq]
    exact List.count_eq_one_of_mem (List.nodup_range _) (List.mem_range.mpr hj)
  · have hagg := (inv_reach hreach).agg
    have hlen := hp.length_eq
    simp only [List.length_map, List.length_range] at hlen
    omega

/-- Witness for C2: in the concrete run whose single task failed, index 0
was still processed and the aggregate counter reached `M = 1`. -/
theorem claim_failure_isolation_witness :
    (∃ e ∈ exCfg3.log, e.idx = 0) ∧ exCfg3.agg = 1 := by
  have h := claim_failure_isolation ["u"] 1 exCfg3 0 0 (by decide)
    reach_exCfg3 terminal_exCfg3 (by decide)
  exact ⟨h.1 0 (by decide), h.2.2⟩

/-- Claim C3 is violated by the code (`file.write(&chunk)?` at main.rs
line 252): `Write::write` may perform a short write, its byte count is
discarded, and the progress increment is always `chunk.len()`.  In the run
`shortWriteEnv` — one 2-byte chunk of which the OS accepts 1 byte — the
task succeeds, the byte-progress increments sum to 2, but only 1 byte is
persisted in the output file.  `write_all` was intended. -/
theorem claim_progress_sum_vs_persisted_bytes :
    (download shortWriteEnv emptyFs).1 = .ok () ∧
    (download shortWriteEnv emptyFs).2.2 = 2 ∧
    (download shortWriteEnv emptyFs).2.1 "f" = some [7] ∧
    (download shortWriteEnv emptyFs).2.2 ≠
      (((download shortWriteEnv emptyFs).2.1 "f").getD []).length := by
  have h : download shortWriteEnv emptyFs =
      (.ok (), fsSet emptyFs "f" [7], 2) := by
    simp [download, shortWriteEnv, shortWriteResponse, streamLoop,
      resolveFilename, percentDecodeLossy, percentDecode, utf8Encode,
      utf8DecodeLossy, utf8StepChar, utf8StepLen]
  rw [h]
  refine ⟨rfl, rfl, ?_, ?_⟩ <;> simp [fsSet]

/-- Claim C4 as stated is false on the code: `SystemTime` instants have
sub-millisecond resolution and `as_millis()` truncates, so the distinct
instants 0 ns and 999999 ns after the epoch (the spec's "distinct
instants", both inside millisecond 0) synthesize the same filename
`"0"`. -/
theorem claim_gen_filename_distinct_instants_fails :
    (0 : Nat) ≠ 999999 ∧ gen_filename 0 = gen_filename 999999 := by
  refine ⟨by decide, ?_⟩
  norm_num [gen_filename]

/-- Claim C4 amended: the synthesized filename is a non-empty all-digit
decimal string, and two instants lying in distinct milliseconds (rather
than any two distinct instants) synthesize distinct filenames. -/
theorem claim_gen_filename_amended (t t' : Nat)
    (h : t / 1000000 ≠ t' / 1000000) :
    gen_filename t ≠ "" ∧
    (∀ c ∈ (gen_filename t).data, c.isDigit) ∧
    gen_filename t ≠ gen_filename t' := by
  refine ⟨?_, ?_, ?_⟩
  · intro he
    exact decimalDigits_ne_nil (t / 1000000) (congrArg String.data he)
  · exact decimalDigits_isDigit (t / 1000000)
  · intro he
    exact h (natToString_injective he)

/-- Witness for the amended C4 at instants 0 ns and 1000000 ns (distinct
milliseconds 0 and 1). -/
theorem claim_gen_filename_amended_witness :
    gen_filename 0 ≠ "" ∧
    (∀ c ∈ (gen_filename 0).data, c.isDigit) ∧
    gen_filename 0 ≠ gen_filename 1000000 :=
  claim_gen_filename_amended 0 1000000 (by decide)

/-- Claim C5 is violated by the code: `create_download_list_from_file`
checks `line.len() != 0` *before* stripping the terminator, and a blank
line read by `read_line` is `"\n"` of length 1, so blank lines are kept as
empty strings instead of skipped: the file `"A\r\n\nB\n"` yields
`["A", "", "B"]`, not the claimed `["A", "B"]`.  (The length check is
unreachable dead code — `read_line` returns a non-empty buffer whenever it
does not signal end of file — though its presence shows blank-line
skipping was intended.) -/
theorem claim_blank_lines_not_skipped :
    create_download_list_from_file "A\r\n\nB\n" = ["A", "", "B"] ∧
    create_download_list_from_file "A\r\n\nB\n" ≠ ["A", "B"] := by
  have h : create_download_list_from_file "A\r\n\nB\n" = ["A", "", "B"] := by
    simp [create_download_list_from_file, readLineSplit, strReplace,
      listReplace]
  refine ⟨h, ?_⟩
  rw [h]
  decide

/-- Claim C6 as stated is false on the code: for a final URL whose path
ends in a slash, such as `https://example.com/a/b/`, the `url` crate
yields the segments `["a", "b", ""]`; the claimed filename is the last
*non-empty* segment `"b"`, but `segments.last()` takes the literal last
segment and the code resolves the empty filename `""`. -/
theorem claim_filename_last_nonempty_fails :
    resolveFilename (some ["a", "b", ""]) 0 = "" ∧
    lastNonEmptySegment ["a", "b", ""] = some "b" ∧
    ("" : String) ≠ "b" := by
  refine ⟨?_, by decide, by decide⟩
  simp [resolveFilename, percentDecodeLossy, percentDecode, utf8DecodeLossy]

/-- Claim C6 amended: the output filename is the percent-decoded *last*
path segment of the final URL — possibly empty; whenever the last segment
is non-empty this is the last non-empty segment, as in the claim's two
examples, `report.pdf` and the percent-encoded `naïve.txt`. -/
theorem claim_filename_last_segment (segs : List String) (s : String)
    (now : Nat) (h : segs.getLast? = some s) :
    resolveFilename (some segs) now = percentDecodeLossy s ∧
    percentDecodeLossy "report.pdf" = "report.pdf" ∧
    percentDecodeLossy "na%C3%AFve.txt" = "naïve.txt" := by
  refine ⟨?_, ?_, ?_⟩
  · simp [resolveFilename, List.getLastD_eq_getLast?, h]
  · simp [percentDecodeLossy, percentDecode, utf8Encode, utf8DecodeLossy,
      utf8StepChar, utf8StepLen, hexVal]
  · simp [percentDecodeLossy, percentDecode, utf8Encode, utf8DecodeLossy,
      utf8StepChar, utf8StepLen, utf8IsCont, utf8Cont3, utf8Cont4, hexVal]

/-- Witness for the amended C6 at the URL
`https://example.com/a/b/report.pdf` (segments `["a","b","report.pdf"]`). -/
theorem claim_filename_last_segment_witness :
    resolveFilename (some ["a", "b", "report.pdf"]) 0 =
      percentDecodeLossy "report.pdf" ∧
    percentDecodeLossy "report.pdf" = "report.pdf" ∧
    percentDecodeLossy "na%C3%AFve.txt" = "naïve.txt" :=
  claim_filename_last_segment ["a", "b", "report.pdf"] "report.pdf" 0 rfl

/-- Claim C7: for `start ≤ end` the sequential list holds one URL per
integer of `[start, end]` in increasing order, the `k`-th being the
template with every `{}` replaced by `start + k`; for `start > end` it is
the configuration error and no list is built. -/
theorem claim_sequential_download_list (url : String) (start last : Int) :
    (start ≤ last →
      ∃ l, create_sequential_download_list url start last = .ok l ∧
        l.length = (last - start + 1).toNat ∧
        ∀ k, k < l.length →
          l.get? k = some (strReplace url "{}" (intToString (start + k)))) ∧
    (start > last →
      create_sequential_download_list url start last =
        .error "The value of start must be less than end") := by
  constructor
  · intro hle
    have hng : ¬ start > last := by omega
    refine ⟨seqLoop url start last, ?_, ?_, ?_⟩
    · simp [create_sequential_download_list, hng]
    · rw [seqLoop_length]
      congr 1
      ring
    · intro k hk
      rw [seqLoop_length] at hk
      exact seqLoop_get url k start last (by omega)
  · intro hgt
    simp [create_sequential_download_list, hgt]

/-- Witness for C7: the template `http://host/{}.jpg` over `[1, 3]`, and
the error for `start = 5 > 2 = end`. -/
theorem claim_sequential_download_list_witness :
    create_sequential_download_list "http://host/{}.jpg" 5 2 =
      .error "The value of start must be less than end" ∧
    ∃ l, create_sequential_download_list "http://host/{}.jpg" 1 3 = .ok l ∧
      l.length = 3 ∧ l.get? 0 = some "http://host/1.jpg" ∧
      l.get? 1 = some "http://host/2.jpg" ∧
      l.get? 2 = some "http://host/3.jpg" := by
  refine ⟨(claim_sequential_download_list "http://host/{}.jpg" 5 2).2
    (by decide), ?_⟩
  obtain ⟨l, h1, h2, h3⟩ :=
    (claim_sequential_download_list "http://host/{}.jpg" 1 3).1 (by decide)
  have hlen : l.length = 3 := by simpa using h2
  refine ⟨l, h1, hlen, ?_, ?_, ?_⟩
  · have := h3 0 (by omega)
    rw [this]
    simp [strReplace, listReplace, intToString, natToString, decimalDigits]
    decide
  · have := h3 1 (by omega)
    rw [this]
    simp [strReplace, listReplace, intToString, natToString, decimalDigits]
    decide
  · have := h3 2 (by omega)
    rw [this]
    simp [strReplace, listReplace, intToString, natToString, decimalDigits]
    decide

/-- Claim C8: a requested connection count above the configured maximum of
10 silently falls back to the default 2 — the pool spawns 2 workers rather
than erroring — while a count within the allowed range is used as is: the
pool spawns exactly the requested number of workers. -/
theorem claim_connection_clamp (n : Nat) :
    (10 < n → clampConnections n = 2 ∧
      (initConfig (clampConnections n)).ws.length = 2) ∧
    (n ≤ 10 → clampConnections n = n ∧
      (initConfig (clampConnections n)).ws.length = n) := by
  constructor
  · intro h
    have : ¬ n ≤ 10 := by omega
    simp [clampConnections, this, initConfig]
  · intro h
    simp [clampConnections, h, initConfig]

/-- Witness for C8 at the requested counts 11 (above the cap) and 3
(within range). -/
theorem claim_connection_clamp_witness :
    (clampConnections 11 = 2 ∧ (initConfig (clampConnections 11)).ws.length = 2) ∧
    (clampConnections 3 = 3 ∧ (initConfig (clampConnections 3)).ws.length = 3) :=
  ⟨(claim_connection_clamp 11).1 (by decide),
   (claim_connection_clamp 3).2 (by decide)⟩

/-- Claim C9: the string "0" passes `validate_natural_number`, the clamp
keeps 0 (`0 <= 10`), and a pool with 0 workers can take no step at all:
every reachable configuration is the initial one — already terminal, with
an empty log — so zero Transfer Operations run even over a non-empty
target list, every target silently skipped. -/
theorem claim_zero_connections (urls : List String) (c : Config)
    (hreach : PoolReach urls 0 c) :
    validate_natural_number "0" = .ok () ∧
    clampConnections 0 = 0 ∧
    c = initConfig 0 ∧ c.log = [] ∧ Terminal c := by
  have hc : c = initConfig 0 := by
    induction hreach with
    | refl => rfl
    | tail hr hstep ih =>
      rw [ih] at hstep
      cases hstep with
      | claimGo i h hlt => simp [initConfig] at h
      | claimHalt i h hge => simp [initConfig] at h
      | finish i idx ok h => simp [initConfig] at h
  refine ⟨rfl, rfl, hc, by rw [hc]; rfl, ?_⟩
  rw [hc]
  intro w hw
  simp [initConfig] at hw

/-- Witness for C9: the pool with 0 workers over the non-empty list
`["u"]`, at the (only reachable) initial configuration. -/
theorem claim_zero_connections_witness :
    validate_natural_number "0" = .ok () ∧
    clampConnections 0 = 0 ∧
    initConfig 0 = initConfig 0 ∧ (initConfig 0).log = [] ∧
    Terminal (initConfig 0) :=
  claim_zero_connections ["u"] (initConfig 0) Relation.ReflTransGen.refl

/-- Claim C10: when the initial `client.get(url).send().await` fails,
`download` returns the error before resolving a filename or opening a
file: the output directory is unchanged and no byte progress was
emitted. -/
theorem claim_send_error_leaves_fs_unchanged (env : DlEnv) (err : String)
    (fs : String → Option (List Nat)) (h : env.send = .error err) :
    download env fs = (.error err, fs, 0) := by
  simp [download, h]

/-- Witness for C10: a concrete refused connection over an empty output
directory. -/
theorem claim_send_error_leaves_fs_unchanged_witness :
    download sendFailEnv emptyFs = (.error "connection refused", emptyFs, 0) :=
  claim_send_error_leaves_fs_unchanged sendFailEnv "connection refused"
    emptyFs rfl

end Mikanbako
